import Mathlib

/-!
Verification of the `netpoll` epoll backend (`src/netpoll/epoll.go`).

The Go code is stateful and effectful; we embed it shallowly:

* The registration table `map[int]func(EpollEvent)` becomes an association
  list `Table` with Go-map read semantics (a missing key reads as the nil
  function, i.e. `none`).  A Go `nil` map is `Option.none` at the outer
  level (`Epoll.callbacks : Option Table`), matching `ep.callbacks = nil`
  after `Close`.
* Callback values (`func(EpollEvent)`, possibly nil) become `Cb := Option Nat`,
  a nil-able opaque identifier.
* OS calls, lock operations, callback invocations and channel signals are
  recorded in an event trace (`Ev`); the success or failure of each OS call
  is an explicit oracle argument (`Option Nat`, `some e` = errno `e`).
* Each Go method becomes a pure function from the pre-state and its oracles
  to (post-state, returned error, trace).
-/

set_option autoImplicit false

namespace Netpoll

/-- A file descriptor (Go `int`). -/
abbrev Fd := Int

/-- A Go callback value `func(EpollEvent)`: either nil (`none`) or an opaque
callback identity. -/
abbrev Cb := Option Nat

/-- The registration table: association list with unique keys, modelling
`map[int]func(EpollEvent)`. -/
abbrev Table := List (Fd × Cb)

/-- `_, has := m[fd]` : key-presence test of the Go map. -/
def hasFd : Table → Fd → Bool
  | [], _ => false
  | (k, _) :: r, fd => k = fd || hasFd r fd

/-- `m[fd]` : Go map read, yielding the nil function when the key is absent. -/
def getCb : Table → Fd → Cb
  | [], _ => none
  | (k, c) :: r, fd => if k = fd then c else getCb r fd

/-- `m[fd] = cb` : Go map insert / replace. -/
def setCb : Table → Fd → Cb → Table
  | [], fd, c => [(fd, c)]
  | (k, c0) :: r, fd, c => if k = fd then (k, c) :: r else (k, c0) :: setCb r fd c

/-- `delete(m, fd)` : Go map delete. -/
def delFd : Table → Fd → Table
  | [], _ => []
  | (k, c) :: r, fd => if k = fd then delFd r fd else (k, c) :: delFd r fd

/-- Read on a possibly-nil Go map: a nil map reads as empty. -/
def mapHas : Option Table → Fd → Bool
  | none, _ => false
  | some t, fd => hasFd t fd

/-- `m[fd]` on a possibly-nil Go map: a nil map yields the nil function. -/
def mapGet : Option Table → Fd → Cb
  | none, _ => none
  | some t, fd => getCb t fd

/-- Insert on a possibly-nil Go map.  (Insertion into a nil map is
unreachable in the source: every insert is behind the `closed` guard, and
`callbacks` is only nil once `closed` is true.) -/
def mapSet : Option Table → Fd → Cb → Option Table
  | none, _, _ => none
  | some t, fd, cb => some (setCb t fd cb)

/-- Delete on a possibly-nil Go map (a Go no-op on nil maps). -/
def mapDel : Option Table → Fd → Option Table
  | none, _ => none
  | some t, fd => some (delFd t fd)

/-- `_EPOLLCLOSED`: the synthetic event value delivered to every residual
callback when the instance closes (source constant `0x20`). -/
def EPOLLCLOSED : Nat := 0x20

/-- The `epoll_ctl` operation selector. -/
inductive CtlOp where
  | add
  | del
  | mod
deriving DecidableEq, Repr

/-- Errors returned by the public methods (`ErrClosed`, `ErrRegistered`,
`ErrNotRegistered`, or a raw OS error). -/
inductive GoErr where
  | errClosed
  | errRegistered
  | errNotRegistered
  | os (code : Nat)
deriving DecidableEq, Repr

/-- One observable event of an execution: lock transitions on `ep.mu`,
OS calls, table mutations, callback invocations, error-handler calls, and
the shutdown-rendezvous channel operations on `ep.waitDone`. -/
inductive Ev where
  | lock
  | unlock
  | rlock
  | runlock
  | epollCreateCall
  | eventfdCall
  | ctl (op : CtlOp) (fd : Fd)
  | writeEv (fd : Fd) (ok : Bool)
  | closeFd (fd : Fd)
  | epollWaitCall
  | store (fd : Fd)
  | eraseEv (fd : Fd)
  | invoke (cb : Nat) (mask : Nat)
  | onError
  | recvDone
  | signalDone
deriving DecidableEq, Repr

/-- The `Epoll` instance state (`fd`, `eventFd`, `closed`, `callbacks`;
the mutex and the `waitDone` channel are modelled by trace events). -/
structure Epoll where
  fd : Fd
  eventFd : Fd
  closed : Bool
  callbacks : Option Table
deriving DecidableEq, Repr

/-- `EpollCreate`: opens the epoll handle (oracle `createErr`), then the
eventfd wake handle (oracle `eventfdErr`), then registers the wake handle
(oracle `ctlErr`).  `fdVal` / `eventFdVal` are the handle values the OS
returns on success.  Mirrors the source exactly: on `eventfdErr` failure
the already-open `fdVal` is NOT closed; on `ctlErr` failure both handles
are closed. -/
def EpollCreate (fdVal eventFdVal : Fd)
    (createErr eventfdErr ctlErr : Option Nat) :
    Option Epoll × Option GoErr × List Ev :=
  match createErr with
  | some e => (none, some (GoErr.os e), [Ev.epollCreateCall])
  | none =>
    match eventfdErr with
    | some e => (none, some (GoErr.os e), [Ev.epollCreateCall, Ev.eventfdCall])
    | none =>
      match ctlErr with
      | some e =>
        (none, some (GoErr.os e),
         [Ev.epollCreateCall, Ev.eventfdCall, Ev.ctl CtlOp.add eventFdVal,
          Ev.closeFd fdVal, Ev.closeFd eventFdVal])
      | none =>
        (some ⟨fdVal, eventFdVal, false, some []⟩, none,
         [Ev.epollCreateCall, Ev.eventfdCall, Ev.ctl CtlOp.add eventFdVal])

/-- `Epoll.Add(fd, events, cb)`: under the exclusive lock, reject when
closed or already registered; otherwise record the callback in the table
and then issue `EPOLL_CTL_ADD` (oracle `ctlErr`); the deferred unlock runs
last.  The `events` mask is forwarded to the OS call only. -/
def Epoll.add (ep : Epoll) (fd : Fd) (events : Nat) (cb : Cb)
    (ctlErr : Option Nat) : Epoll × Option GoErr × List Ev :=
  if ep.closed then
    (ep, some GoErr.errClosed, [Ev.lock, Ev.unlock])
  else if mapHas ep.callbacks fd then
    (ep, some GoErr.errRegistered, [Ev.lock, Ev.unlock])
  else
    ({ ep with callbacks := mapSet ep.callbacks fd cb },
     ctlErr.map GoErr.os,
     [Ev.lock, Ev.store fd, Ev.ctl CtlOp.add fd, Ev.unlock])

/-- `Epoll.Del(fd)`: under the exclusive lock, reject when closed or not
registered; otherwise delete the table entry and then issue
`EPOLL_CTL_DEL` (oracle `ctlErr`). -/
def Epoll.del (ep : Epoll) (fd : Fd) (ctlErr : Option Nat) :
    Epoll × Option GoErr × List Ev :=
  if ep.closed then
    (ep, some GoErr.errClosed, [Ev.lock, Ev.unlock])
  else if mapHas ep.callbacks fd then
    ({ ep with callbacks := mapDel ep.callbacks fd },
     ctlErr.map GoErr.os,
     [Ev.lock, Ev.eraseEv fd, Ev.ctl CtlOp.del fd, Ev.unlock])
  else
    (ep, some GoErr.errNotRegistered, [Ev.lock, Ev.unlock])

/-- `Epoll.Mod(fd, events)`: under the shared lock, reject when closed or
not registered; otherwise issue `EPOLL_CTL_MOD` (oracle `ctlErr`).  Never
mutates the table. -/
def Epoll.mod (ep : Epoll) (fd : Fd) (events : Nat) (ctlErr : Option Nat) :
    Epoll × Option GoErr × List Ev :=
  if ep.closed then
    (ep, some GoErr.errClosed, [Ev.rlock, Ev.runlock])
  else if mapHas ep.callbacks fd then
    (ep, ctlErr.map GoErr.os, [Ev.rlock, Ev.ctl CtlOp.mod fd, Ev.runlock])
  else
    (ep, some GoErr.errNotRegistered, [Ev.rlock, Ev.runlock])

/-- The residual-callback flush at the end of `Close`:
`for _, cb := range callbacks { if cb != nil { cb(_EPOLLCLOSED) } }`. -/
def closeInvokes : Option Table → List Ev
  | none => []
  | some t => t.filterMap (fun p => p.2.map (fun c => Ev.invoke c EPOLLCLOSED))

/-- `Epoll.Close()`: a second call returns `ErrClosed` under the lock.  A
first call sets `closed`, writes the wake bytes to the eventfd (oracle
`writeErr`; on failure it returns the error with `closed` already true and
the wait loop never signalled), then unlocks, receives the wait loop's
completion signal, closes the eventfd (oracle `closeEvErr`; on failure it
returns that error without touching the table), and finally detaches the
table under the lock and invokes every residual non-nil callback with
`_EPOLLCLOSED` outside the lock. -/
def Epoll.close (ep : Epoll) (writeErr closeEvErr : Option Nat) :
    Epoll × Option GoErr × List Ev :=
  if ep.closed then
    (ep, some GoErr.errClosed, [Ev.lock, Ev.unlock])
  else
    match writeErr with
    | some e =>
      ({ ep with closed := true }, some (GoErr.os e),
       [Ev.lock, Ev.writeEv ep.eventFd false, Ev.unlock])
    | none =>
      match closeEvErr with
      | some e =>
        ({ ep with closed := true }, some (GoErr.os e),
         [Ev.lock, Ev.writeEv ep.eventFd true, Ev.unlock, Ev.recvDone,
          Ev.closeFd ep.eventFd])
      | none =>
        ({ ep with closed := true, callbacks := none }, none,
         [Ev.lock, Ev.writeEv ep.eventFd true, Ev.unlock, Ev.recvDone,
          Ev.closeFd ep.eventFd, Ev.lock, Ev.unlock] ++ closeInvokes ep.callbacks)

/-- The outcome the OS reports for one `EpollWait` call: an error
(transient when `temporaryErr(err)` holds) or a batch of ready entries
`(fd, events-mask)`. -/
inductive WaitInput where
  | fail (transient : Bool)
  | ready (evs : List (Fd × Nat))
deriving DecidableEq, Repr

/-- `maxWaitEventsBegin`: initial batch-buffer capacity. -/
def maxWaitEventsBegin : Nat := 1024

/-- `maxWaitEventsStop`: ceiling on the batch-buffer capacity. -/
def maxWaitEventsStop : Nat := 32768

/-- The resolution loop of `Epoll.wait`, run under the shared lock: for
each ready entry in order, terminate (`none`) as soon as the wake handle
is seen, otherwise resolve the fd through the table (`callbacks[i] =
ep.callbacks[fd]`, nil when absent). -/
def resolveCbs (tbl : Option Table) (eventFd : Fd) :
    List (Fd × Nat) → Option (List (Cb × Nat))
  | [] => some []
  | p :: rest =>
    if p.1 = eventFd then none
    else
      match resolveCbs tbl eventFd rest with
      | none => none
      | some l => some ((mapGet tbl p.1, p.2) :: l)

/-- The dispatch loop of `Epoll.wait`, run outside the lock: invoke each
non-nil resolved callback with the OS-reported mask and clear its slot;
nil slots are skipped.  Returns the trace and the final slot contents. -/
def dispatchStep : List (Cb × Nat) → List Ev × List Cb
  | [] => ([], [])
  | (none, _) :: r =>
    match dispatchStep r with
    | (tr, sl) => (tr, none :: sl)
  | (some c, m) :: r =>
    match dispatchStep r with
    | (tr, sl) => (Ev.invoke c m :: tr, none :: sl)

/-- One iteration of the wait loop at batch capacity `cap`: block in
`EpollWait` (the kernel fills at most `cap` entries, hence the `take`);
on a transient error continue, on a fatal error call the error handler
and terminate; on success resolve under the shared lock (terminating if
the wake handle is ready), dispatch outside the lock, and grow the buffers
(`n == len(events) && n*2 <= maxWaitEventsStop`).  Returns (trace,
terminated, next capacity). -/
def waitIter (ep : Epoll) (cap : Nat) : WaitInput → List Ev × Bool × Nat
  | WaitInput.fail true => ([Ev.epollWaitCall], false, cap)
  | WaitInput.fail false => ([Ev.epollWaitCall, Ev.onError], true, cap)
  | WaitInput.ready evs0 =>
    match resolveCbs ep.callbacks ep.eventFd (evs0.take cap) with
    | none => ([Ev.epollWaitCall, Ev.rlock, Ev.runlock], true, cap)
    | some resolved =>
      ([Ev.epollWaitCall, Ev.rlock, Ev.runlock] ++ (dispatchStep resolved).1,
       false,
       if (evs0.take cap).length = cap ∧ (evs0.take cap).length * 2 ≤ maxWaitEventsStop
       then (evs0.take cap).length * 2 else cap)

/-- The wait loop proper: iterate `waitIter` over the sequence of OS wait
outcomes until an iteration terminates (or the given outcomes run out, in
which case the loop is still blocked in the OS: terminated = false). -/
def waitLoop (ep : Epoll) : Nat → List WaitInput → List Ev × Bool × Nat
  | cap, [] => ([], false, cap)
  | cap, i :: rest =>
    if (waitIter ep cap i).2.1 then waitIter ep cap i
    else ((waitIter ep cap i).1 ++ (waitLoop ep (waitIter ep cap i).2.2 rest).1,
          (waitLoop ep (waitIter ep cap i).2.2 rest).2)

/-- The deferred cleanup of `Epoll.wait`: close the epoll handle, report
a close failure through the error handler only, then close the
`waitDone` channel (the single completion signal). -/
def waitCleanup (fd : Fd) (closeFails : Bool) : List Ev :=
  Ev.closeFd fd :: (if closeFails then [Ev.onError, Ev.signalDone] else [Ev.signalDone])

/-- The full wait goroutine `ep.wait(onError)`: the loop starting at
capacity `maxWaitEventsBegin`, followed by the deferred cleanup on every
termination path. -/
def Epoll.wait (ep : Epoll) (inputs : List WaitInput) (closeFails : Bool) :
    List Ev × Bool × Nat :=
  if (waitLoop ep maxWaitEventsBegin inputs).2.1 then
    ((waitLoop ep maxWaitEventsBegin inputs).1 ++ waitCleanup ep.fd closeFails,
     true, (waitLoop ep maxWaitEventsBegin inputs).2.2)
  else waitLoop ep maxWaitEventsBegin inputs

/-- Occurrence count of an event in a trace. -/
def countEv (e : Ev) : List Ev → Nat
  | [] => 0
  | x :: r => (if x = e then 1 else 0) + countEv e r

/-- Checks that every `invoke` event of a trace happens while the lock
depth (exclusive and shared acquisitions minus releases) is zero, i.e.
all callback invocations happen with the lock released. -/
def invokesUnlocked : Nat → List Ev → Bool
  | _, [] => true
  | d, Ev.lock :: r => invokesUnlocked (d + 1) r
  | d, Ev.rlock :: r => invokesUnlocked (d + 1) r
  | d, Ev.unlock :: r => invokesUnlocked (d - 1) r
  | d, Ev.runlock :: r => invokesUnlocked (d - 1) r
  | d, Ev.invoke _ _ :: r => (d == 0) && invokesUnlocked d r
  | d, _ :: r => invokesUnlocked d r


/-! ### Helper lemmas -/

theorem hasFd_setCb_self (t : Table) (fd : Fd) (cb : Cb) :
    hasFd (setCb t fd cb) fd = true := by
  induction t with
  | nil => simp [setCb, hasFd]
  | cons p r ih =>
    cases p with
    | mk k c =>
      by_cases hp : k = fd
      · simp [setCb, hasFd, hp]
      · simp [setCb, hasFd, hp, ih]

theorem getCb_setCb_self (t : Table) (fd : Fd) (cb : Cb) :
    getCb (setCb t fd cb) fd = cb := by
  induction t with
  | nil => simp [setCb, getCb]
  | cons p r ih =>
    cases p with
    | mk k c =>
      by_cases hp : k = fd
      · simp [setCb, getCb, hp]
      · simp [setCb, getCb, hp, ih]

theorem resolveCbs_eq_none (tbl : Option Table) (efd : Fd)
    (evs : List (Fd × Nat)) (h : ∃ q ∈ evs, q.1 = efd) :
    resolveCbs tbl efd evs = none := by
  induction evs with
  | nil => simp at h
  | cons p r ih =>
    by_cases hp : p.1 = efd
    · simp [resolveCbs, hp]
    · obtain ⟨q, hq, hqe⟩ := h
      rcases List.mem_cons.mp hq with rfl | hqr
      · exact absurd hqe hp
      · simp [resolveCbs, hp, ih ⟨q, hqr, hqe⟩]

theorem resolveCbs_eq_map (tbl : Option Table) (efd : Fd)
    (evs : List (Fd × Nat)) (h : ∀ q ∈ evs, q.1 ≠ efd) :
    resolveCbs tbl efd evs = some (evs.map (fun p => (mapGet tbl p.1, p.2))) := by
  induction evs with
  | nil => simp [resolveCbs]
  | cons p r ih =>
    have hp : p.1 ≠ efd := h p (by simp)
    have hr := ih (fun q hq => h q (by simp [hq]))
    simp [resolveCbs, hp, hr]

theorem dispatchStep_fst (l : List (Cb × Nat)) :
    (dispatchStep l).1 = l.filterMap (fun p => p.1.map (fun c => Ev.invoke c p.2)) := by
  induction l with
  | nil => rfl
  | cons p r ih =>
    cases p with
    | mk c m => cases c <;> simp [dispatchStep, ih]

theorem dispatchStep_snd (l : List (Cb × Nat)) :
    (dispatchStep l).2 = l.map (fun _ => none) := by
  induction l with
  | nil => rfl
  | cons p r ih =>
    cases p with
    | mk c m => cases c <;> simp [dispatchStep, ih]

theorem countEv_append (e : Ev) (a b : List Ev) :
    countEv e (a ++ b) = countEv e a + countEv e b := by
  induction a with
  | nil => simp [countEv]
  | cons x r ih => simp [countEv, ih]; omega

theorem countEv_eq_zero (e : Ev) (l : List Ev) :
    countEv e l = 0 ↔ e ∉ l := by
  induction l with
  | nil => simp [countEv]
  | cons x r ih =>
    by_cases hx : x = e
    · subst hx; simp [countEv]
    · simp [countEv, hx, ih, Ne.symm hx]

theorem signalDone_not_mem_waitIter (ep : Epoll) (cap : Nat) (i : WaitInput) :
    Ev.signalDone ∉ (waitIter ep cap i).1 := by
  cases i with
  | fail b => cases b <;> simp [waitIter]
  | ready evs0 =>
    cases h : resolveCbs ep.callbacks ep.eventFd (evs0.take cap) with
    | none => simp [waitIter, h]
    | some resolved =>
      simp [waitIter, h, dispatchStep_fst, List.mem_filterMap]

theorem signalDone_not_mem_waitLoop (ep : Epoll) (inputs : List WaitInput)
    (cap : Nat) : Ev.signalDone ∉ (waitLoop ep cap inputs).1 := by
  induction inputs generalizing cap with
  | nil => simp [waitLoop]
  | cons i rest ih =>
    by_cases hterm : (waitIter ep cap i).2.1
    · simp [waitLoop, hterm, signalDone_not_mem_waitIter]
    · simp [waitLoop, hterm, signalDone_not_mem_waitIter, ih]

theorem countEv_signalDone_waitCleanup (fd : Fd) (b : Bool) :
    countEv Ev.signalDone (waitCleanup fd b) = 1 := by
  cases b <;> simp [waitCleanup, countEv]

theorem waitIter_cap_le (ep : Epoll) (cap : Nat) (i : WaitInput) :
    cap ≤ (waitIter ep cap i).2.2 := by
  cases i with
  | fail b => cases b <;> simp [waitIter]
  | ready evs0 =>
    cases h : resolveCbs ep.callbacks ep.eventFd (evs0.take cap) with
    | none => simp [waitIter, h]
    | some resolved =>
      simp only [waitIter, h]
      split
      · next hcond => omega
      · exact le_refl cap

theorem waitLoop_cap_le (ep : Epoll) (inputs : List WaitInput) (cap : Nat) :
    cap ≤ (waitLoop ep cap inputs).2.2 := by
  induction inputs generalizing cap with
  | nil => simp [waitLoop]
  | cons i rest ih =>
    by_cases hterm : (waitIter ep cap i).2.1
    · simpa [waitLoop, hterm] using waitIter_cap_le ep cap i
    · simp only [waitLoop, hterm, if_false]
      exact le_trans (waitIter_cap_le ep cap i) (ih _)

theorem invokesUnlocked_closeInvokes (tbl : Option Table) :
    invokesUnlocked 0 (closeInvokes tbl) = true := by
  cases tbl with
  | none => rfl
  | some t =>
    induction t with
    | nil => rfl
    | cons p r ih =>
      cases hp : p.2 with
      | none => simpa [closeInvokes, List.filterMap_cons, hp] using ih
      | some c =>
        simp only [closeInvokes, List.filterMap_cons, hp, Option.map_some]
        simpa [invokesUnlocked, closeInvokes] using ih

/-! ### Claims -/

/-- Claim C2: on an open instance with `fd` not yet registered, `Add`
stores the callback in the table before issuing the OS add-interest call
(the trace has `store` before `ctl`); when the OS call fails `Add` returns
the OS error yet the table entry stays, so a subsequent `Add` for the same
fd returns `ErrRegistered` (with no state change) even though the handle
was never armed. -/
theorem epoll_C2 (ep : Epoll) (t : Table) (fd : Fd) (m : Nat) (cb : Cb)
    (e : Nat) (hc : ep.closed = false) (ht : ep.callbacks = some t)
    (hfd : hasFd t fd = false) :
    Epoll.add ep fd m cb (some e) =
      ({ ep with callbacks := some (setCb t fd cb) }, some (GoErr.os e),
       [Ev.lock, Ev.store fd, Ev.ctl CtlOp.add fd, Ev.unlock])
    ∧ mapHas (Epoll.add ep fd m cb (some e)).1.callbacks fd = true
    ∧ mapGet (Epoll.add ep fd m cb (some e)).1.callbacks fd = cb
    ∧ (∀ m2 cb2 o2, Epoll.add (Epoll.add ep fd m cb (some e)).1 fd m2 cb2 o2
        = ((Epoll.add ep fd m cb (some e)).1, some GoErr.errRegistered,
           [Ev.lock, Ev.unlock])) := by
  have h1 : Epoll.add ep fd m cb (some e) =
      ({ ep with callbacks := some (setCb t fd cb) }, some (GoErr.os e),
       [Ev.lock, Ev.store fd, Ev.ctl CtlOp.add fd, Ev.unlock]) := by
    simp [Epoll.add, hc, ht, hfd, mapHas, mapSet]
  refine ⟨h1, ?_, ?_, ?_⟩
  · rw [h1]; simp [mapHas, hasFd_setCb_self]
  · rw [h1]; simp [mapGet, getCb_setCb_self]
  · intro m2 cb2 o2
    rw [h1]
    simp [Epoll.add, hc, mapHas, hasFd_setCb_self]

/-- Claim C2 witness: a concrete open instance with an empty table. -/
theorem epoll_C2_witness :
    Epoll.add ⟨3, 4, false, some []⟩ 7 1 (some 0) (some 22) =
      (⟨3, 4, false, some [(7, some 0)]⟩, some (GoErr.os 22),
       [Ev.lock, Ev.store 7, Ev.ctl CtlOp.add 7, Ev.unlock])
    ∧ Epoll.add ⟨3, 4, false, some [(7, some 0)]⟩ 7 1 (some 1) none =
      (⟨3, 4, false, some [(7, some 0)]⟩, some GoErr.errRegistered,
       [Ev.lock, Ev.unlock]) := by
  have h := epoll_C2 ⟨3, 4, false, some []⟩ [] 7 1 (some 0) 22 rfl rfl rfl
  exact ⟨h.1, h.2.2.2 1 (some 1) none⟩

/-- Claim C3 (code bug): when `epoll_create1` succeeds (returning handle 5)
and the subsequent eventfd creation fails with errno 11, `EpollCreate`
returns the error without closing handle 5 — the trace contains no close
of any handle, so the construction is not atomic as the spec claims. -/
theorem epoll_C3_leak :
    EpollCreate 5 0 none (some 11) none
      = (none, some (GoErr.os 11), [Ev.epollCreateCall, Ev.eventfdCall])
    ∧ (∀ f, Ev.closeFd f ∉ (EpollCreate 5 0 none (some 11) none).2.2) := by
  constructor
  · rfl
  · intro f
    simp [EpollCreate]

/-- Claim C5: `Close` on an already-closed instance returns `ErrClosed`,
leaves the state unchanged, and its trace holds no wake-handle write, no
handle close, and no callback invocation. -/
theorem epoll_C5 (ep : Epoll) (w c : Option Nat) (h : ep.closed = true) :
    Epoll.close ep w c = (ep, some GoErr.errClosed, [Ev.lock, Ev.unlock])
    ∧ (∀ f b, Ev.writeEv f b ∉ (Epoll.close ep w c).2.2)
    ∧ (∀ f, Ev.closeFd f ∉ (Epoll.close ep w c).2.2)
    ∧ (∀ cb m, Ev.invoke cb m ∉ (Epoll.close ep w c).2.2) := by
  simp [Epoll.close, h]

/-- Claim C5 witness: a concrete already-closed instance. -/
theorem epoll_C5_witness :
    Epoll.close ⟨3, 4, true, none⟩ none none
      = (⟨3, 4, true, none⟩, some GoErr.errClosed, [Ev.lock, Ev.unlock]) :=
  (epoll_C5 ⟨3, 4, true, none⟩ none none rfl).1

/-- Claim C8: on an open instance, `Del` and `Mod` on a handle absent from
the table return `ErrNotRegistered`, leave the state unchanged, and issue
no `epoll_ctl` call. -/
theorem epoll_C8 (ep : Epoll) (fd : Fd) (m : Nat) (o1 o2 : Option Nat)
    (hc : ep.closed = false) (hfd : mapHas ep.callbacks fd = false) :
    Epoll.del ep fd o1 = (ep, some GoErr.errNotRegistered, [Ev.lock, Ev.unlock])
    ∧ Epoll.mod ep fd m o2
        = (ep, some GoErr.errNotRegistered, [Ev.rlock, Ev.runlock])
    ∧ (∀ op f, Ev.ctl op f ∉ (Epoll.del ep fd o1).2.2)
    ∧ (∀ op f, Ev.ctl op f ∉ (Epoll.mod ep fd m o2).2.2) := by
  simp [Epoll.del, Epoll.mod, hc, hfd]

/-- Claim C8 witness: a concrete open instance with handle 7 absent. -/
theorem epoll_C8_witness :
    Epoll.del ⟨3, 4, false, some [(5, some 0)]⟩ 7 none
      = (⟨3, 4, false, some [(5, some 0)]⟩, some GoErr.errNotRegistered,
         [Ev.lock, Ev.unlock])
    ∧ Epoll.mod ⟨3, 4, false, some [(5, some 0)]⟩ 7 1 none
      = (⟨3, 4, false, some [(5, some 0)]⟩, some GoErr.errNotRegistered,
         [Ev.rlock, Ev.runlock]) := by
  have h := epoll_C8 ⟨3, 4, false, some [(5, some 0)]⟩ 7 1 none none rfl (by decide)
  exact ⟨h.1, h.2.1⟩

/-- Claim C9: a first `Close` whose wake-handle write fails returns that
OS error with `closed` already true — every later `Add`/`Del`/`Mod`/`Close`
returns `ErrClosed` — yet its trace holds no callback invocation, no
successful wake-handle write, and no completion-signal receive: the
shutdown is not atomic on this path. -/
theorem epoll_C9 (ep : Epoll) (e : Nat) (c : Option Nat)
    (h : ep.closed = false) :
    Epoll.close ep (some e) c =
      ({ ep with closed := true }, some (GoErr.os e),
       [Ev.lock, Ev.writeEv ep.eventFd false, Ev.unlock])
    ∧ (∀ fd m cb o, (Epoll.add { ep with closed := true } fd m cb o).2.1
        = some GoErr.errClosed)
    ∧ (∀ fd o, (Epoll.del { ep with closed := true } fd o).2.1
        = some GoErr.errClosed)
    ∧ (∀ fd m o, (Epoll.mod { ep with closed := true } fd m o).2.1
        = some GoErr.errClosed)
    ∧ (∀ w2 c2, (Epoll.close { ep with closed := true } w2 c2).2.1
        = some GoErr.errClosed)
    ∧ (∀ cb m, Ev.invoke cb m ∉ (Epoll.close ep (some e) c).2.2)
    ∧ (∀ f, Ev.writeEv f true ∉ (Epoll.close ep (some e) c).2.2)
    ∧ Ev.recvDone ∉ (Epoll.close ep (some e) c).2.2 := by
  simp [Epoll.close, Epoll.add, Epoll.del, Epoll.mod, h]

/-- Claim C9 witness: a concrete open instance with one registration whose
wake-handle write fails with errno 5. -/
theorem epoll_C9_witness :
    Epoll.close ⟨3, 4, false, some [(7, some 0)]⟩ (some 5) none =
      (⟨3, 4, true, some [(7, some 0)]⟩, some (GoErr.os 5),
       [Ev.lock, Ev.writeEv 4 false, Ev.unlock])
    ∧ (Epoll.close ⟨3, 4, true, some [(7, some 0)]⟩ none none).2.1
        = some GoErr.errClosed := by
  have h := epoll_C9 ⟨3, 4, false, some [(7, some 0)]⟩ 5 none rfl
  exact ⟨h.1, h.2.2.2.2.1 none none⟩

/-- Claim C1 counterexample: a first `Close` on a non-closed instance with
one registered callback, where the wait loop is signalled and completes
(the trace receives the completion signal) but the subsequent close of the
wake handle fails with errno 9: `Close` returns early — the table is not
swapped for empty and the remaining callback is never invoked, refuting
the claim as stated. -/
theorem epoll_C1_counterexample :
    Epoll.close ⟨3, 4, false, some [(7, some 0)]⟩ none (some 9) =
      (⟨3, 4, true, some [(7, some 0)]⟩, some (GoErr.os 9),
       [Ev.lock, Ev.writeEv 4 true, Ev.unlock, Ev.recvDone, Ev.closeFd 4]) := by
  rfl

/-- Claim C1 (amended): on a first `Close` of a non-closed instance in
which the wake-handle write and the wake-handle close both succeed, after
the wait loop signals completion `Close` swaps the registration table for
empty (nil) and invokes every callback remaining in it at that moment
exactly once with `_EPOLLCLOSED`, with the lock released during the
invocations; afterwards every `Add` returns `ErrClosed`. -/
theorem epoll_C1 (ep : Epoll) (t : Table) (hc : ep.closed = false)
    (ht : ep.callbacks = some t) :
    Epoll.close ep none none =
      ({ ep with closed := true, callbacks := none }, none,
       [Ev.lock, Ev.writeEv ep.eventFd true, Ev.unlock, Ev.recvDone,
        Ev.closeFd ep.eventFd, Ev.lock, Ev.unlock]
         ++ t.filterMap (fun p => p.2.map (fun c => Ev.invoke c EPOLLCLOSED)))
    ∧ invokesUnlocked 0 (Epoll.close ep none none).2.2 = true
    ∧ (Epoll.close ep none none).1.callbacks = none
    ∧ (∀ fd m cb o, Epoll.add (Epoll.close ep none none).1 fd m cb o
        = ((Epoll.close ep none none).1, some GoErr.errClosed,
           [Ev.lock, Ev.unlock])) := by
  have h1 : Epoll.close ep none none =
      ({ ep with closed := true, callbacks := none }, none,
       [Ev.lock, Ev.writeEv ep.eventFd true, Ev.unlock, Ev.recvDone,
        Ev.closeFd ep.eventFd, Ev.lock, Ev.unlock]
         ++ t.filterMap (fun p => p.2.map (fun c => Ev.invoke c EPOLLCLOSED))) := by
    simp [Epoll.close, hc, ht, closeInvokes]
  refine ⟨h1, ?_, ?_, ?_⟩
  · rw [h1]
    have h2 : invokesUnlocked 0 (closeInvokes (some t)) = true :=
      invokesUnlocked_closeInvokes (some t)
    simpa [invokesUnlocked, closeInvokes] using h2
  · rw [h1]
  · intro fd m cb o
    rw [h1]
    simp [Epoll.add]

/-- Claim C1 witness: a concrete instance with a nil and a non-nil
registered callback. -/
theorem epoll_C1_witness :
    Epoll.close ⟨3, 4, false, some [(7, some 0), (8, none)]⟩ none none =
      (⟨3, 4, true, none⟩, none,
       [Ev.lock, Ev.writeEv 4 true, Ev.unlock, Ev.recvDone, Ev.closeFd 4,
        Ev.lock, Ev.unlock, Ev.invoke 0 EPOLLCLOSED])
    ∧ invokesUnlocked 0
        (Epoll.close ⟨3, 4, false, some [(7, some 0), (8, none)]⟩ none none).2.2
        = true := by
  have h := epoll_C1 ⟨3, 4, false, some [(7, some 0), (8, none)]⟩
      [(7, some 0), (8, none)] rfl rfl
  exact ⟨h.1, h.2.1⟩

/-- Claim C4: when the ready batch contains the wake handle, the wait-loop
iteration releases the shared lock and terminates, and invokes no callback
at all (in particular none for entries after the wake handle). -/
theorem epoll_C4 (ep : Epoll) (cap : Nat) (evs0 : List (Fd × Nat))
    (hhit : ∃ q ∈ evs0.take cap, q.1 = ep.eventFd) :
    waitIter ep cap (WaitInput.ready evs0)
      = ([Ev.epollWaitCall, Ev.rlock, Ev.runlock], true, cap)
    ∧ (∀ cb m, Ev.invoke cb m ∉ (waitIter ep cap (WaitInput.ready evs0)).1) := by
  have h := resolveCbs_eq_none ep.callbacks ep.eventFd (evs0.take cap) hhit
  constructor
  · simp [waitIter, h]
  · simp [waitIter, h]

/-- Claim C4 witness: a batch where the wake handle (4) is first and a
registered handle (7) follows. -/
theorem epoll_C4_witness :
    waitIter ⟨3, 4, false, some [(7, some 0)]⟩ 2 (WaitInput.ready [(4, 1), (7, 1)])
      = ([Ev.epollWaitCall, Ev.rlock, Ev.runlock], true, 2) :=
  (epoll_C4 ⟨3, 4, false, some [(7, some 0)]⟩ 2 [(4, 1), (7, 1)]
    ⟨(4, 1), by decide, rfl⟩).1

/-- Claim C10: on a ready batch not containing the wake handle, the
iteration resolves each entry through the table (a missing handle yields
the nil callback), skips nil slots without failing, invokes exactly the
non-nil resolved callbacks in OS-reported order, terminates nothing, and
leaves every slot of the callback buffer cleared. -/
theorem epoll_C10 (ep : Epoll) (cap : Nat) (evs0 : List (Fd × Nat))
    (hno : ∀ q ∈ evs0.take cap, q.1 ≠ ep.eventFd) :
    (waitIter ep cap (WaitInput.ready evs0)).1
      = [Ev.epollWaitCall, Ev.rlock, Ev.runlock]
        ++ ((evs0.take cap).map (fun p => (mapGet ep.callbacks p.1, p.2))).filterMap
             (fun p => p.1.map (fun c => Ev.invoke c p.2))
    ∧ (waitIter ep cap (WaitInput.ready evs0)).2.1 = false
    ∧ Ev.onError ∉ (waitIter ep cap (WaitInput.ready evs0)).1
    ∧ (dispatchStep ((evs0.take cap).map (fun p => (mapGet ep.callbacks p.1, p.2)))).2
        = ((evs0.take cap).map (fun p => (mapGet ep.callbacks p.1, p.2))).map
            (fun _ => none) := by
  have h := resolveCbs_eq_map ep.callbacks ep.eventFd (evs0.take cap) hno
  refine ⟨?_, ?_, ?_, dispatchStep_snd _⟩
  · simp [waitIter, h, dispatchStep_fst]
  · simp [waitIter, h]
  · simp [waitIter, h, dispatchStep_fst, List.mem_filterMap]

/-- Claim C10 witness: handle 7 is registered, handle 9 is not (its slot
resolves to nil and is skipped); only 7's callback fires, in order. -/
theorem epoll_C10_witness :
    (waitIter ⟨3, 4, false, some [(7, some 5)]⟩ 4
        (WaitInput.ready [(9, 2), (7, 1)])).1
      = [Ev.epollWaitCall, Ev.rlock, Ev.runlock, Ev.invoke 5 1] := by
  have h := epoll_C10 ⟨3, 4, false, some [(7, some 5)]⟩ 4 [(9, 2), (7, 1)]
      (by decide)
  rw [h.1]
  rfl

/-- Claim C6: a dispatching wait-loop iteration changes the batch capacity
exactly when the ready count filled the capacity and twice the capacity
stays within the ceiling, in which case the new capacity is double the old;
the capacity never decreases across an iteration; the full loop starts at
`maxWaitEventsBegin = 1024` and never goes below it; the ceiling
`maxWaitEventsStop` is 32768. -/
theorem epoll_C6 (ep : Epoll) (cap : Nat) (evs0 : List (Fd × Nat))
    (inputs : List WaitInput) (b : Bool) (hcap : 0 < cap)
    (hno : ∀ q ∈ evs0.take cap, q.1 ≠ ep.eventFd) :
    ((waitIter ep cap (WaitInput.ready evs0)).2.2 ≠ cap
      ↔ ((evs0.take cap).length = cap ∧ 2 * cap ≤ maxWaitEventsStop))
    ∧ (((evs0.take cap).length = cap ∧ 2 * cap ≤ maxWaitEventsStop)
        → (waitIter ep cap (WaitInput.ready evs0)).2.2 = 2 * cap)
    ∧ cap ≤ (waitIter ep cap (WaitInput.ready evs0)).2.2
    ∧ maxWaitEventsBegin ≤ (Epoll.wait ep inputs b).2.2
    ∧ maxWaitEventsBegin = 1024 ∧ maxWaitEventsStop = 32768 := by
  have h := resolveCbs_eq_map ep.callbacks ep.eventFd (evs0.take cap) hno
  have hiter : (waitIter ep cap (WaitInput.ready evs0)).2.2
      = if ((evs0.take cap).length = cap
            ∧ (evs0.take cap).length * 2 ≤ maxWaitEventsStop)
        then (evs0.take cap).length * 2 else cap := by
    simp [waitIter, h]
  refine ⟨?_, ?_, waitIter_cap_le ep cap _, ?_, rfl, rfl⟩
  · rw [hiter]
    by_cases hcond : ((evs0.take cap).length = cap
        ∧ (evs0.take cap).length * 2 ≤ maxWaitEventsStop)
    · rw [if_pos hcond]
      have h1 := hcond.1
      have h2 := hcond.2
      constructor
      · intro _; exact ⟨h1, by omega⟩
      · intro _; omega
    · rw [if_neg hcond]
      constructor
      · intro hne; exact absurd rfl hne
      · intro h2; exact absurd ⟨h2.1, by omega⟩ hcond
  · intro h2
    rw [hiter, if_pos ⟨h2.1, by omega⟩]
    omega
  · have hle := waitLoop_cap_le ep inputs maxWaitEventsBegin
    by_cases hl : (waitLoop ep maxWaitEventsBegin inputs).2.1
    · simpa [Epoll.wait, hl] using hle
    · simpa [Epoll.wait, hl] using hle

/-- Claim C6 witness: capacity 1 filled by one ready entry doubles to 2. -/
theorem epoll_C6_witness :
    (waitIter ⟨3, 4, false, some []⟩ 1 (WaitInput.ready [(7, 1)])).2.2 = 2 * 1 :=
  (epoll_C6 ⟨3, 4, false, some []⟩ 1 [(7, 1)] [] true (by decide)
    (by decide)).2.1 ⟨by decide, by decide⟩

/-- Claim C7: a transient wait failure makes the loop retry at once — the
iteration contributes only the wait call, no callback invocation and no
error-handler call, and the loop goes on with the same capacity; a fatal
failure calls the error handler and terminates; on every terminating run
the deferred cleanup closes the epoll handle (a close failure being
reported only through the error handler — the loop returns nothing) and
closes the completion channel exactly once; a non-terminated run has
signalled completion zero times. -/
theorem epoll_C7 (ep : Epoll) (cap : Nat) (rest inputs : List WaitInput)
    (b : Bool) :
    waitIter ep cap (WaitInput.fail true) = ([Ev.epollWaitCall], false, cap)
    ∧ (∀ cb m, Ev.invoke cb m ∉ (waitIter ep cap (WaitInput.fail true)).1)
    ∧ Ev.onError ∉ (waitIter ep cap (WaitInput.fail true)).1
    ∧ waitLoop ep cap (WaitInput.fail true :: rest)
        = (Ev.epollWaitCall :: (waitLoop ep cap rest).1, (waitLoop ep cap rest).2)
    ∧ waitIter ep cap (WaitInput.fail false)
        = ([Ev.epollWaitCall, Ev.onError], true, cap)
    ∧ ((Epoll.wait ep inputs b).2.1 = true →
        countEv Ev.signalDone (Epoll.wait ep inputs b).1 = 1
        ∧ Ev.closeFd ep.fd ∈ (Epoll.wait ep inputs b).1
        ∧ (Epoll.wait ep inputs b).1
            = (waitLoop ep maxWaitEventsBegin inputs).1 ++ waitCleanup ep.fd b)
    ∧ ((Epoll.wait ep inputs b).2.1 = false →
        countEv Ev.signalDone (Epoll.wait ep inputs b).1 = 0) := by
  have hzero : countEv Ev.signalDone (waitLoop ep maxWaitEventsBegin inputs).1 = 0 :=
    (countEv_eq_zero _ _).mpr (signalDone_not_mem_waitLoop ep inputs _)
  refine ⟨rfl, by simp [waitIter], by simp [waitIter], ?_, rfl, ?_, ?_⟩
  · simp [waitLoop, waitIter]
  · intro hterm
    by_cases hl : (waitLoop ep maxWaitEventsBegin inputs).2.1
    · refine ⟨?_, ?_, ?_⟩
      · simp only [Epoll.wait, hl, if_true]
        rw [countEv_append, hzero, countEv_signalDone_waitCleanup]
      · simp [Epoll.wait, hl, waitCleanup]
      · simp [Epoll.wait, hl]
    · rw [Epoll.wait] at hterm
      simp [hl] at hterm
  · intro hterm
    by_cases hl : (waitLoop ep maxWaitEventsBegin inputs).2.1
    · rw [Epoll.wait] at hterm
      simp [hl] at hterm
    · simpa [Epoll.wait, hl] using hzero

/-- Claim C7 witness: one transient failure, then a fatal one; the run
terminates with exactly one completion signal and the epoll handle (3)
closed, the close failure being reported through the handler. -/
theorem epoll_C7_witness :
    countEv Ev.signalDone
      (Epoll.wait ⟨3, 4, false, some []⟩
        [WaitInput.fail true, WaitInput.fail false] true).1 = 1
    ∧ Ev.closeFd 3 ∈
      (Epoll.wait ⟨3, 4, false, some []⟩
        [WaitInput.fail true, WaitInput.fail false] true).1 := by
  have h := epoll_C7 ⟨3, 4, false, some []⟩ 1024 []
      [WaitInput.fail true, WaitInput.fail false] true
  have h2 := h.2.2.2.2.2.1 (by decide)
  exact ⟨h2.1, h2.2.1⟩

end Netpoll
